import Mathlib

/-!
# Deadline tracker: shallow embedding of the batch jobs

Embedding of the data model (`deadlines/models.py`) and the two batch
jobs — the reminder dispatcher (`send_reminders.py`) and the Asana sync
reconciler (`sync_asana.py`) — of the deadline-tracker repository.

Dates are modelled as integers (a day count); `date₁ - date₂` is then the
`.days` of the Python timedelta, and the ISO string rendering of a date is
injective, so Python string comparison of two dates is integer equality.
Strings are ASCII in all relevant data, so Python `str.lower`, `str.strip`,
slicing and `in` are per-character operations on the string's char list
(`pyLower`, `pyStrip`, `pyTake`, `strContains`).
-/

/-- `deadlines.models.Client` (the fields the jobs read). -/
structure Client where
  name : String
  email : String
deriving DecidableEq, Repr

/-- `deadlines.models.Matter` (the fields the jobs read). -/
structure Matter where
  id : Nat
  title : String
  status : String
  asana_project_id : String
deriving DecidableEq, Repr

/-- `deadlines.models.DeadlineType`. -/
structure DeadlineType where
  id : Nat
  name : String
  default_reminder_days : List Int
deriving DecidableEq, Repr

/-- `deadlines.models.Deadline` (the fields the jobs read or write). -/
structure Deadline where
  id : Nat
  matterId : Nat
  typeId : Nat
  date : Int
  description : String
  reminder_days : List Int
  status : String
  asana_task_id : String
deriving DecidableEq, Repr

/-- `deadlines.models.ReminderLog`; `sent_at_date` is the date part of the
`sent_at` timestamp (the only part the dispatcher's dedup query reads). -/
structure ReminderLog where
  deadlineId : Nat
  sent_at_date : Int
  recipient_email : String
  days_before : Int
  status : String
  error_message : String
deriving DecidableEq, Repr

/-- `Deadline.effective_reminder_days` (models.py): the deadline's own
`reminder_days` when the list is truthy (non-empty), else the type's
`default_reminder_days`. -/
def effective_reminder_days (d : Deadline) (dt : DeadlineType) : List Int :=
  if d.reminder_days ≠ [] then d.reminder_days else dt.default_reminder_days

/-- The two guard checks of `send_reminders.Command.handle` (lines 57-64):
the loop body `continue`s — makes no attempt — unless this returns true. -/
def shouldAttempt (days_until : Int) (reminder_days : List Int) : Bool :=
  if ¬ reminder_days.contains days_until ∧ 0 ≤ days_until then false
  else if days_until < 0 ∧ days_until < -7 then false
  else true

/-- One row of the dispatcher's queryset: a deadline joined (via
`select_related`) with its matter, the matter's client and its type. -/
structure DRow where
  deadline : Deadline
  matter : Matter
  client : Client
  dtype : DeadlineType
deriving DecidableEq, Repr

/-- Python `str.lower()` (ASCII data): lower-case every character. -/
def pyLower (s : String) : String :=
  ⟨s.data.map Char.toLower⟩

/-- Python `str.strip()`: drop leading and trailing whitespace. -/
def pyStrip (s : String) : String :=
  ⟨((s.data.dropWhile Char.isWhitespace).reverse.dropWhile Char.isWhitespace).reverse⟩

/-- Python `s[:n]`: the first `n` characters. -/
def pyTake (s : String) (n : Nat) : String :=
  ⟨s.data.take n⟩

/-- Python `needle in hay` on strings: contiguous substring test. -/
def strContains (hay needle : String) : Bool :=
  decide (needle.data <:+: hay.data)

/-- `sync_asana.Command._match_deadline_type`: three tiers, first match in
iteration order wins; `dts` is the `{name.lower(): DeadlineType}` mapping
in its iteration order. -/
def matchDeadlineType (task_name : String) (dts : List (String × DeadlineType)) :
    Option DeadlineType :=
  let name_lower := pyLower task_name
  match dts.find? (fun p => p.1 == name_lower) with
  | some p => some p.2
  | none =>
    match dts.find? (fun p => strContains name_lower p.1) with
    | some p => some p.2
    | none =>
      match dts.find? (fun p => strContains p.1 name_lower) with
      | some p => some p.2
      | none => none

/-- The `{dt.name.lower(): dt for dt in DeadlineType.objects.all()}` mapping
of `sync_asana.Command.handle` (line 73), as an association list in
queryset iteration order. -/
def buildTypeMap (l : List DeadlineType) : List (String × DeadlineType) :=
  l.map (fun dt => (pyLower dt.name, dt))

/-! ## Reminder dispatcher (`send_reminders.Command.handle`) -/

/-- The dispatcher's mutable state during one run: the two counters, the
`ReminderLog` table (existing rows plus rows created by this run), and the
list of `(deadline id, recipient)` emails actually delivered. -/
structure SendState where
  sent_count : Nat
  skip_count : Nat
  logs : List ReminderLog
  emails : List (Nat × String)
deriving DecidableEq, Repr

/-- The dedup query (lines 76-81): a `ReminderLog` exists for this exact
(deadline, days_until) pair with status `sent` and `sent_at` dated today. -/
def dedupHit (logs : List ReminderLog) (deadlineId : Nat) (days_until today : Int) : Bool :=
  logs.any (fun l => l.deadlineId == deadlineId && l.days_before == days_until &&
    l.status == "sent" && l.sent_at_date == today)

/-- The `ReminderLog.objects.create(..., status='sent')` row (lines 116-121);
`error_message` takes its blank default. -/
def sentLog (d : Deadline) (recipient : String) (days_until today : Int) : ReminderLog :=
  ⟨d.id, today, recipient, days_until, "sent", ""⟩

/-- The `ReminderLog.objects.create(..., status='failed', error_message=str(e))`
row (lines 124-130). -/
def failedLog (d : Deadline) (recipient : String) (days_until today : Int)
    (err : String) : ReminderLog :=
  ⟨d.id, today, recipient, days_until, "failed", err⟩

/-- One iteration of the dispatcher loop (lines 53-135). `transport` is the
email backend: `send_mail` for this deadline either delivers (`.ok`) or
raises with a message (`.error`). -/
def processDeadline (today : Int) (dry_run : Bool) (transport : Nat → Except String Unit)
    (st : SendState) (r : DRow) : SendState :=
  let days_until := r.deadline.date - today
  let reminder_days := effective_reminder_days r.deadline r.dtype
  if shouldAttempt days_until reminder_days = false then st
  else
    let recipient := r.client.email
    if recipient = "" then { st with skip_count := st.skip_count + 1 }
    else if dedupHit st.logs r.deadline.id days_until today then
      { st with skip_count := st.skip_count + 1 }
    else if ¬ dry_run then
      match transport r.deadline.id with
      | .ok _ =>
        { st with sent_count := st.sent_count + 1,
                  logs := st.logs ++ [sentLog r.deadline recipient days_until today],
                  emails := st.emails ++ [(r.deadline.id, recipient)] }
      | .error e =>
        { st with logs := st.logs ++ [failedLog r.deadline recipient days_until today e] }
    else { st with sent_count := st.sent_count + 1 }

/-- The dispatcher's queryset filter (lines 45-48): status `upcoming`,
owning matter status `active`. -/
def upcomingActive (rows : List DRow) : List DRow :=
  rows.filter (fun r => r.deadline.status == "upcoming" && r.matter.status == "active")

/-- The whole dispatcher run: filter, then the loop over every row. -/
def send_reminders (today : Int) (dry_run : Bool) (transport : Nat → Except String Unit)
    (rows : List DRow) (logs0 : List ReminderLog) : SendState :=
  (upcomingActive rows).foldl (processDeadline today dry_run transport) ⟨0, 0, logs0, []⟩

/-! ## Asana sync reconciler (`sync_asana.Command.handle`) -/

/-- One task returned by the Asana API (`opt_fields` name,due_on,completed,
gid,notes); `due_on = none` models a missing/falsy due date. -/
structure AsanaTask where
  name : String
  due_on : Option Int
  completed : Bool
  gid : String
  notes : String
deriving DecidableEq, Repr

/-- The reconciler's mutable state: the `Deadline` table, the next fresh
primary key, and the three counters. -/
structure SyncState where
  deadlines : List Deadline
  nextId : Nat
  created : Nat
  updated : Nat
  skipped : Nat
deriving DecidableEq, Repr

/-- The existence query key (lines 117-120): `asana_task_id=task_gid` and
`matter=matter`. -/
def dlKey (matterId : Nat) (gid : String) (d : Deadline) : Bool :=
  d.asana_task_id == gid && d.matterId == matterId

/-- Rewrite the first element satisfying `p` (used by the proofs below as a
reference step for tables whose keys are unique). -/
def updateFirst (p : α → Bool) (f : α → α) : List α → List α
  | [] => []
  | x :: xs => if p x then f x :: xs else x :: updateFirst p f xs

/-- Django `.filter(...).first()` under `Deadline.Meta.ordering = ['date']`
(models.py line 109): the matching row with the earliest date; among
equal dates the database order is unspecified, modelled as the stored
order. -/
def firstByDate (p : Deadline → Bool) (dls : List Deadline) : Option Deadline :=
  match dls.filter p with
  | [] => none
  | x :: xs => some (xs.foldl (fun best d => if d.date < best.date then d else best) x)

/-- `existing.save()`: `UPDATE ... WHERE id = ?` — write the mutated row
over every stored row carrying its primary key (exactly one in a real
database). -/
def saveRow (d : Deadline) (dls : List Deadline) : List Deadline :=
  dls.map (fun x => if x.id == d.id then d else x)

/-- One iteration of the reconciler's per-task loop (lines 91-158). The
existence check (lines 117-120) is `.first()` on a date-ordered queryset;
`e1`/`e2` are the in-memory `existing` object after each guarded mutation. -/
def processTask (dry_run : Bool) (dts : List (String × DeadlineType)) (matterId : Nat)
    (st : SyncState) (task : AsanaTask) : SyncState :=
  let task_name := pyStrip task.name
  match task.due_on with
  | none => { st with skipped := st.skipped + 1 }
  | some due =>
    match matchDeadlineType task_name dts with
    | none => { st with skipped := st.skipped + 1 }
    | some mt =>
      match firstByDate (dlKey matterId task.gid) st.deadlines with
      | some existing =>
        let dateChanged : Bool := existing.date != due
        let doComplete : Bool := task.completed && existing.status == "upcoming"
        let e1 := if dateChanged && !dry_run then { existing with date := due } else existing
        let dls1 := if dateChanged && !dry_run then saveRow e1 st.deadlines else st.deadlines
        let dls2 :=
          if doComplete && !dry_run then saveRow { e1 with status := "completed" } dls1
          else dls1
        { st with deadlines := dls2,
                  updated := st.updated + (if dateChanged then 1 else 0)
                                        + (if doComplete then 1 else 0) }
      | none =>
        let newDl : Deadline :=
          { id := st.nextId, matterId := matterId, typeId := mt.id, date := due,
            description := pyTake task.notes 500, reminder_days := [],
            status := if task.completed then "completed" else "upcoming",
            asana_task_id := task.gid }
        if dry_run then { st with created := st.created + 1 }
        else { st with deadlines := st.deadlines ++ [newDl], nextId := st.nextId + 1,
                       created := st.created + 1 }

/-- Reference step used only in the proofs: the per-task loop specialized
to tables whose reconciliation keys are unique, where the date-ordered
`.first()` is the first stored match and `save()` rewrites it in place. -/
def processTaskU (dry_run : Bool) (dts : List (String × DeadlineType)) (matterId : Nat)
    (st : SyncState) (task : AsanaTask) : SyncState :=
  let task_name := pyStrip task.name
  match task.due_on with
  | none => { st with skipped := st.skipped + 1 }
  | some due =>
    match matchDeadlineType task_name dts with
    | none => { st with skipped := st.skipped + 1 }
    | some mt =>
      match st.deadlines.find? (dlKey matterId task.gid) with
      | some existing =>
        let dateChanged : Bool := existing.date != due
        let doComplete : Bool := task.completed && existing.status == "upcoming"
        let dls1 :=
          if dateChanged && !dry_run then
            updateFirst (dlKey matterId task.gid) (fun d => { d with date := due }) st.deadlines
          else st.deadlines
        let dls2 :=
          if doComplete && !dry_run then
            updateFirst (dlKey matterId task.gid) (fun d => { d with status := "completed" }) dls1
          else dls1
        { st with deadlines := dls2,
                  updated := st.updated + (if dateChanged then 1 else 0)
                                        + (if doComplete then 1 else 0) }
      | none =>
        let newDl : Deadline :=
          { id := st.nextId, matterId := matterId, typeId := mt.id, date := due,
            description := pyTake task.notes 500, reminder_days := [],
            status := if task.completed then "completed" else "upcoming",
            asana_task_id := task.gid }
        if dry_run then { st with created := st.created + 1 }
        else { st with deadlines := st.deadlines ++ [newDl], nextId := st.nextId + 1,
                       created := st.created + 1 }

/-- One iteration of the per-matter loop (lines 79-167): fetch the project's
tasks; an `ApiException` (`.error`) is logged and the matter is skipped. -/
def processMatter (dry_run : Bool) (dts : List (String × DeadlineType))
    (fetch : String → Except String (List AsanaTask)) (st : SyncState) (m : Matter) :
    SyncState :=
  match fetch m.asana_project_id with
  | .error _ => st
  | .ok tasks => tasks.foldl (processTask dry_run dts m.id) st

/-- The matter queryset (lines 60-66): active matters with a non-empty
Asana project id, optionally narrowed to one matter id. -/
def syncMatters (matters : List Matter) (matterFilter : Option Nat) : List Matter :=
  let ms := matters.filter (fun m => m.asana_project_id != "" && m.status == "active")
  match matterFilter with
  | some i => ms.filter (fun m => m.id == i)
  | none => ms

/-- The whole reconciler run. A falsy (empty) access token aborts before any
processing (lines 44-48). -/
def sync_asana (token : String) (dry_run : Bool) (matterFilter : Option Nat)
    (matters : List Matter) (dtypes : List DeadlineType)
    (fetch : String → Except String (List AsanaTask))
    (deadlines0 : List Deadline) (nextId0 : Nat) : SyncState :=
  if token = "" then ⟨deadlines0, nextId0, 0, 0, 0⟩
  else
    (syncMatters matters matterFilter).foldl
      (processMatter dry_run (buildTypeMap dtypes) fetch) ⟨deadlines0, nextId0, 0, 0, 0⟩

/-! ## Derived notions used by the statements -/

/-- A row the dispatcher would act on: passes the guards, has a recipient,
and is not deduplicated against the given `ReminderLog` table. -/
def qualifies (today : Int) (logs : List ReminderLog) (r : DRow) : Bool :=
  shouldAttempt (r.deadline.date - today) (effective_reminder_days r.deadline r.dtype)
    && r.client.email != ""
    && !(dedupHit logs r.deadline.id (r.deadline.date - today) today)

/-- `processTask` applied to a `(matter id, task)` pair. -/
def processPair (dry_run : Bool) (dts : List (String × DeadlineType))
    (st : SyncState) (p : Nat × AsanaTask) : SyncState :=
  processTask dry_run dts p.1 st p.2

/-- `processTaskU` applied to a `(matter id, task)` pair. -/
def processPairU (dry_run : Bool) (dts : List (String × DeadlineType))
    (st : SyncState) (p : Nat × AsanaTask) : SyncState :=
  processTaskU dry_run dts p.1 st p.2

/-- A well-formed Deadline table, as the database guarantees it: primary
keys unique and below the fresh-pk counter, and at most one row per
(matter, external task id) reconciliation key. -/
def goodTable (dls : List Deadline) (n : Nat) : Prop :=
  (dls.map (fun d => d.id)).Nodup ∧
  (dls.map (fun d => (d.matterId, d.asana_task_id))).Nodup ∧
  ∀ d ∈ dls, d.id < n

/-- The `(matter id, task)` pairs a reconciler run processes, in order. -/
def flatTasks (fetch : String → Except String (List AsanaTask)) :
    List Matter → List (Nat × AsanaTask)
  | [] => []
  | m :: ms =>
    (match fetch m.asana_project_id with
     | .error _ => []
     | .ok ts => ts.map (fun t => (m.id, t))) ++ flatTasks fetch ms

/-- The reconciliation key of a processed pair. -/
def pairKey (p : Nat × AsanaTask) : Nat × String := (p.1, p.2.gid)

/-- A task is settled in a deadline table: if it would be matched, the table
already holds a row under its key with the right date, and the external
completion flag forces nothing. -/
def settled (dts : List (String × DeadlineType)) (mId : Nat)
    (dls : List Deadline) (t : AsanaTask) : Prop :=
  ∀ due, t.due_on = some due →
    (matchDeadlineType (pyStrip t.name) dts).isSome = true →
    ∃ d, dls.find? (dlKey mId t.gid) = some d ∧ d.date = due ∧
      ¬(t.completed = true ∧ d.status = "upcoming")

/-- `settled` for a `(matter id, task)` pair. -/
def settledP (dts : List (String × DeadlineType)) (dls : List Deadline)
    (p : Nat × AsanaTask) : Prop :=
  settled dts p.1 dls p.2

/-! ## Sample data (used by the closed witness statements) -/

def ddExpiration : DeadlineType := ⟨1, "DD Expiration", [30, 14, 7, 3, 1]⟩

def closingDate : DeadlineType := ⟨2, "Closing Date", [7, 3, 1]⟩

def sampleTypeMap : List (String × DeadlineType) := buildTypeMap [ddExpiration, closingDate]

def sampleClient : Client := ⟨"Jane Roe", "jane@example.com"⟩

def sampleMatter : Matter := ⟨1, "123 Main St purchase", "active", "proj1"⟩

def sampleDeadline : Deadline := ⟨1, 1, 1, 10, "", [], "upcoming", ""⟩

def sampleRow : DRow := ⟨sampleDeadline, sampleMatter, sampleClient, ddExpiration⟩

def sampleTask : AsanaTask := ⟨"DD Expiration - Phase 1", some 10, false, "g1", "check title"⟩

/-! ## Helper lemmas: dispatcher branches -/

theorem shouldAttempt_eq_cond (du : Int) (rds : List Int) :
    shouldAttempt du rds =
      ((rds.contains du || decide (du < 0)) && decide (-7 ≤ du)) := by
  unfold shouldAttempt
  by_cases hm : rds.contains du = true <;> by_cases h0 : du < 0 <;>
    by_cases h7 : -7 ≤ du <;>
      simp [hm, h0, h7] <;> omega

theorem processDeadline_no_attempt (today : Int) (dry : Bool)
    (tr : Nat → Except String Unit) (st : SendState) (r : DRow)
    (h : shouldAttempt (r.deadline.date - today)
          (effective_reminder_days r.deadline r.dtype) = false) :
    processDeadline today dry tr st r = st := by
  simp [processDeadline, h]

theorem processDeadline_no_email (today : Int) (dry : Bool)
    (tr : Nat → Except String Unit) (st : SendState) (r : DRow)
    (h : shouldAttempt (r.deadline.date - today)
          (effective_reminder_days r.deadline r.dtype) = true)
    (he : r.client.email = "") :
    processDeadline today dry tr st r = { st with skip_count := st.skip_count + 1 } := by
  simp [processDeadline, h, he]

theorem processDeadline_dedup_skip (today : Int) (dry : Bool)
    (tr : Nat → Except String Unit) (st : SendState) (r : DRow)
    (h : shouldAttempt (r.deadline.date - today)
          (effective_reminder_days r.deadline r.dtype) = true)
    (he : r.client.email ≠ "")
    (hd : dedupHit st.logs r.deadline.id (r.deadline.date - today) today = true) :
    processDeadline today dry tr st r = { st with skip_count := st.skip_count + 1 } := by
  simp [processDeadline, h, he, hd]

theorem processDeadline_dry_send (today : Int)
    (tr : Nat → Except String Unit) (st : SendState) (r : DRow)
    (h : shouldAttempt (r.deadline.date - today)
          (effective_reminder_days r.deadline r.dtype) = true)
    (he : r.client.email ≠ "")
    (hd : dedupHit st.logs r.deadline.id (r.deadline.date - today) today = false) :
    processDeadline today true tr st r = { st with sent_count := st.sent_count + 1 } := by
  simp [processDeadline, h, he, hd]

theorem processDeadline_send_ok (today : Int)
    (tr : Nat → Except String Unit) (st : SendState) (r : DRow)
    (h : shouldAttempt (r.deadline.date - today)
          (effective_reminder_days r.deadline r.dtype) = true)
    (he : r.client.email ≠ "")
    (hd : dedupHit st.logs r.deadline.id (r.deadline.date - today) today = false)
    (hok : tr r.deadline.id = Except.ok ()) :
    processDeadline today false tr st r =
      { st with sent_count := st.sent_count + 1,
                logs := st.logs ++
                  [sentLog r.deadline r.client.email (r.deadline.date - today) today],
                emails := st.emails ++ [(r.deadline.id, r.client.email)] } := by
  simp [processDeadline, h, he, hd, hok]

theorem processDeadline_send_err (today : Int)
    (tr : Nat → Except String Unit) (st : SendState) (r : DRow)
    (h : shouldAttempt (r.deadline.date - today)
          (effective_reminder_days r.deadline r.dtype) = true)
    (he : r.client.email ≠ "")
    (hd : dedupHit st.logs r.deadline.id (r.deadline.date - today) today = false)
    (e : String) (herr : tr r.deadline.id = Except.error e) :
    processDeadline today false tr st r =
      { st with logs := st.logs ++
          [failedLog r.deadline r.client.email (r.deadline.date - today) today e] } := by
  simp [processDeadline, h, he, hd, herr]

theorem processDeadline_changes (today : Int) (dry : Bool)
    (tr : Nat → Except String Unit) (st : SendState) (r : DRow)
    (h : shouldAttempt (r.deadline.date - today)
          (effective_reminder_days r.deadline r.dtype) = true) :
    processDeadline today dry tr st r ≠ st := by
  by_cases he : r.client.email = ""
  · rw [processDeadline_no_email today dry tr st r h he]
    intro hEq
    have := congrArg SendState.skip_count hEq
    simp at this
  · by_cases hd : dedupHit st.logs r.deadline.id (r.deadline.date - today) today
    · rw [processDeadline_dedup_skip today dry tr st r h he hd]
      intro hEq
      have := congrArg SendState.skip_count hEq
      simp at this
    · cases dry with
      | true =>
        rw [processDeadline_dry_send today tr st r h he (by simpa using hd)]
        intro hEq
        have := congrArg SendState.sent_count hEq
        simp at this
      | false =>
        cases hok : tr r.deadline.id with
        | ok u =>
          rw [processDeadline_send_ok today tr st r h he (by simpa using hd) (by simpa using hok)]
          intro hEq
          have := congrArg SendState.sent_count hEq
          simp at this
        | error e =>
          rw [processDeadline_send_err today tr st r h he (by simpa using hd) e hok]
          intro hEq
          have := congrArg (fun s => s.logs.length) hEq
          simp at this

/-! ## Claim theorems -/

/-- C8: for every Deadline, `effective_reminder_days` equals the deadline's
own `reminder_days` list when that list is non-empty, and equals its
DeadlineType's `default_reminder_days` otherwise. -/
theorem effective_reminder_days_spec (d : Deadline) (dt : DeadlineType) :
    (d.reminder_days ≠ [] → effective_reminder_days d dt = d.reminder_days) ∧
    (d.reminder_days = [] → effective_reminder_days d dt = dt.default_reminder_days) := by
  constructor <;> intro h <;> simp [effective_reminder_days, h]

theorem effective_reminder_days_spec_witness :
    effective_reminder_days ⟨2, 1, 1, 10, "", [9], "upcoming", ""⟩ ddExpiration = [9] ∧
    effective_reminder_days sampleDeadline ddExpiration = [30, 14, 7, 3, 1] :=
  ⟨(effective_reminder_days_spec _ _).1 (by decide),
   (effective_reminder_days_spec _ _).2 (by decide)⟩

/-- C1: an upcoming-deadline row of an active matter is attempted (the loop
body runs past the two guards, subject to the later no-email and dedup
skips) exactly when `days_until` is in `effective_reminder_days` or
`days_until < 0`, and never once `days_until < -7`: overdue by exactly 7
days still attempts, overdue by 8 or more never does, regardless of
reminder-day membership; a row failing this condition leaves the run's
state completely untouched. -/
theorem reminder_send_condition (du : Int) (rds : List Int) (today : Int) (dry : Bool)
    (tr : Nat → Except String Unit) (st : SendState) (r : DRow) :
    (shouldAttempt du rds = ((rds.contains du || decide (du < 0)) && decide (-7 ≤ du))) ∧
    (du = -7 → shouldAttempt du rds = true) ∧
    (du ≤ -8 → shouldAttempt du rds = false) ∧
    (processDeadline today dry tr st r = st ↔
      shouldAttempt (r.deadline.date - today)
        (effective_reminder_days r.deadline r.dtype) = false) := by
  refine ⟨shouldAttempt_eq_cond du rds, ?_, ?_, ?_⟩
  · intro h
    subst h
    rw [shouldAttempt_eq_cond]
    simp
  · intro h
    rw [shouldAttempt_eq_cond]
    have h1 : ¬ (-7 : Int) ≤ du := by omega
    simp [h1]
  · constructor
    · intro hEq
      by_contra hne
      exact processDeadline_changes today dry tr st r
        (by simpa using hne) hEq
    · exact processDeadline_no_attempt today dry tr st r

theorem reminder_send_condition_witness :
    shouldAttempt (-7) [3] = true ∧ shouldAttempt (-8) [3] = false :=
  ⟨(reminder_send_condition (-7) [3] 0 false (fun _ => Except.ok ()) ⟨0, 0, [], []⟩
      sampleRow).2.1 rfl,
   (reminder_send_condition (-8) [3] 0 false (fun _ => Except.ok ()) ⟨0, 0, [], []⟩
      sampleRow).2.2.1 (by omega)⟩

theorem find?_of_all_pos {α : Type} (p : α → Bool) (l : List α) (hne : l ≠ [])
    (h : ∀ x ∈ l, p x = true) : l.find? p = some (l.head hne) := by
  cases l with
  | nil => exact absurd rfl hne
  | cons a l => exact List.find?_cons_of_pos _ (h a (by simp))

theorem string_eq_of_data {s t : String} (h : s.data = t.data) : s = t := by
  cases s; cases t; simp_all

/-- C3: the reconciler matches a task name to a DeadlineType by exact
case-insensitive equality first, then task-name-contains-type-name, then
type-name-contains-task-name; within a tier the first candidate in
iteration order wins, and no tier matching means no match. In particular
"DD Expiration" matches type "DD Expiration", "DD Expiration - Phase 1"
matches "DD Expiration", and "Closing" matches "Closing Date". -/
theorem match_precedence (n : String) (dts : List (String × DeadlineType)) :
    (∀ p, dts.find? (fun q => q.1 == pyLower n) = some p →
       matchDeadlineType n dts = some p.2) ∧
    (dts.find? (fun q => q.1 == pyLower n) = none →
     ∀ p, dts.find? (fun q => strContains (pyLower n) q.1) = some p →
       matchDeadlineType n dts = some p.2) ∧
    (dts.find? (fun q => q.1 == pyLower n) = none →
     dts.find? (fun q => strContains (pyLower n) q.1) = none →
     ∀ p, dts.find? (fun q => strContains q.1 (pyLower n)) = some p →
       matchDeadlineType n dts = some p.2) ∧
    (dts.find? (fun q => q.1 == pyLower n) = none →
     dts.find? (fun q => strContains (pyLower n) q.1) = none →
     dts.find? (fun q => strContains q.1 (pyLower n)) = none →
       matchDeadlineType n dts = none) ∧
    (matchDeadlineType "DD Expiration" sampleTypeMap = some ddExpiration ∧
     matchDeadlineType "DD Expiration - Phase 1" sampleTypeMap = some ddExpiration ∧
     matchDeadlineType "Closing" sampleTypeMap = some closingDate) := by
  refine ⟨?_, ?_, ?_, ?_, by decide⟩
  · intro p hp
    simp [matchDeadlineType, hp]
  · intro h1 p hp
    simp [matchDeadlineType, h1, hp]
  · intro h1 h2 p hp
    simp [matchDeadlineType, h1, h2, hp]
  · intro h1 h2 h3
    simp [matchDeadlineType, h1, h2, h3]

theorem match_precedence_witness :
    matchDeadlineType "DD Expiration" sampleTypeMap = some ddExpiration :=
  (match_precedence "DD Expiration" sampleTypeMap).1
    (("dd expiration", ddExpiration)) (by decide)

/-- C10: a task whose name strips to the empty string is never unmatched
when at least one DeadlineType exists — the empty lower-cased name is a
substring of every type name, so (when no type key is itself empty) the
reverse-containment tier returns the first type in iteration order, and
such a task is processed rather than counted as skipped. -/
theorem empty_name_always_matches (s : String) (dts : List (String × DeadlineType))
    (hs : pyStrip s = "") (hne : dts ≠ []) :
    (matchDeadlineType (pyStrip s) dts).isSome = true ∧
    ((∀ p ∈ dts, p.1 ≠ "") →
      matchDeadlineType (pyStrip s) dts = some (dts.head hne).2) ∧
    (∀ dry mId (st : SyncState) (task : AsanaTask) due,
      task.name = s → task.due_on = some due →
      (processTask dry dts mId st task).skipped = st.skipped) := by
  rw [hs]
  have hlow : pyLower "" = "" := rfl
  have hmain : ∃ mt, matchDeadlineType "" dts = some mt := by
    cases h1 : dts.find? (fun p => p.1 == pyLower "") with
    | some p => exact ⟨p.2, by simp [matchDeadlineType, h1]⟩
    | none =>
      cases h2 : dts.find? (fun p => strContains (pyLower "") p.1) with
      | some p => exact ⟨p.2, by simp [matchDeadlineType, h1, h2]⟩
      | none =>
        have h3 : dts.find? (fun p => strContains p.1 (pyLower "")) =
            some (dts.head hne) := by
          apply find?_of_all_pos _ _ hne
          intro x _
          rw [hlow]
          simp only [strContains, decide_eq_true_eq]
          exact List.nil_infix
        exact ⟨(dts.head hne).2, by simp [matchDeadlineType, h1, h2, h3]⟩
  refine ⟨?_, ?_, ?_⟩
  · obtain ⟨mt, hmt⟩ := hmain
    simp [hmt]
  · intro hkeys
    have h1 : dts.find? (fun p => p.1 == pyLower "") = none := by
      rw [List.find?_eq_none]
      intro x hx
      rw [hlow]
      simp only [beq_iff_eq]
      exact hkeys x hx
    have h2 : dts.find? (fun p => strContains (pyLower "") p.1) = none := by
      rw [List.find?_eq_none]
      intro x hx
      rw [hlow]
      simp only [strContains, decide_eq_true_eq]
      intro hinf
      exact hkeys x hx (string_eq_of_data (List.infix_nil.mp hinf))
    have h3 : dts.find? (fun p => strContains p.1 (pyLower "")) =
        some (dts.head hne) := by
      apply find?_of_all_pos _ _ hne
      intro x _
      rw [hlow]
      simp only [strContains, decide_eq_true_eq]
      exact List.nil_infix
    simp [matchDeadlineType, h1, h2, h3]
  · intro dry mId st task due hname hdue
    have hstrip : pyStrip task.name = "" := by rw [hname, hs]
    obtain ⟨mt, hmt⟩ := hmain
    simp only [processTask, hstrip, hdue, hmt]
    cases hfind : firstByDate (dlKey mId task.gid) st.deadlines with
    | some d => simp
    | none => cases dry <;> simp

theorem empty_name_always_matches_witness :
    (matchDeadlineType (pyStrip "   ") sampleTypeMap).isSome = true :=
  (empty_name_always_matches "   " sampleTypeMap (by decide) (by decide)).1

/-- C9: an absent (falsy) access token makes the reconciler return before
any processing — the result is the untouched initial state, independent of
the external system — while the dispatcher has no token precondition and
proceeds (here: a concrete run that sends one reminder). -/
theorem missing_token_aborts (dry : Bool) (mf : Option Nat) (matters : List Matter)
    (dtypes : List DeadlineType)
    (fetch fetch' : String → Except String (List AsanaTask))
    (dls0 : List Deadline) (nid : Nat) :
    sync_asana "" dry mf matters dtypes fetch dls0 nid = ⟨dls0, nid, 0, 0, 0⟩ ∧
    sync_asana "" dry mf matters dtypes fetch dls0 nid =
      sync_asana "" dry mf matters dtypes fetch' dls0 nid ∧
    (send_reminders 3 false (fun _ => Except.ok ()) [sampleRow] []).sent_count = 1 := by
  refine ⟨by simp [sync_asana], by simp [sync_asana], by decide⟩

/-! ## Helper lemmas: dry-run frame -/

theorem processDeadline_dry_frame (today : Int) (tr : Nat → Except String Unit)
    (st : SendState) (r : DRow) :
    (processDeadline today true tr st r).logs = st.logs ∧
    (processDeadline today true tr st r).emails = st.emails ∧
    (processDeadline today true tr st r).sent_count =
      st.sent_count + (if qualifies today st.logs r then 1 else 0) := by
  by_cases h : shouldAttempt (r.deadline.date - today)
      (effective_reminder_days r.deadline r.dtype) = true
  · by_cases he : r.client.email = ""
    · rw [processDeadline_no_email today true tr st r h he]
      have hq : qualifies today st.logs r = false := by simp [qualifies, he]
      simp [hq]
    · by_cases hd : dedupHit st.logs r.deadline.id (r.deadline.date - today) today = true
      · rw [processDeadline_dedup_skip today true tr st r h he hd]
        have hq : qualifies today st.logs r = false := by simp [qualifies, hd]
        simp [hq]
      · rw [processDeadline_dry_send today tr st r h he (by simpa using hd)]
        have hq : qualifies today st.logs r = true := by
          simp [qualifies, h, he, hd]
        simp [hq]
  · have h' : shouldAttempt (r.deadline.date - today)
        (effective_reminder_days r.deadline r.dtype) = false := by simpa using h
    rw [processDeadline_no_attempt today true tr st r h']
    have hq : qualifies today st.logs r = false := by simp [qualifies, h']
    simp [hq]

theorem foldl_dry_frame (today : Int) (tr : Nat → Except String Unit)
    (l : List DRow) (st : SendState) :
    (l.foldl (processDeadline today true tr) st).logs = st.logs ∧
    (l.foldl (processDeadline today true tr) st).emails = st.emails ∧
    (l.foldl (processDeadline today true tr) st).sent_count =
      st.sent_count + l.countP (qualifies today st.logs) := by
  induction l generalizing st with
  | nil => simp
  | cons x xs ih =>
    obtain ⟨hL, hE, hS⟩ := processDeadline_dry_frame today tr st x
    obtain ⟨ihL, ihE, ihS⟩ := ih (processDeadline today true tr st x)
    refine ⟨by rw [List.foldl_cons, ihL, hL],
            by rw [List.foldl_cons, ihE, hE], ?_⟩
    rw [List.foldl_cons, ihS, hS, hL, List.countP_cons]
    by_cases hq : qualifies today st.logs x <;> simp [hq] <;> omega

theorem processTask_dry_frame (dts : List (String × DeadlineType)) (mId : Nat)
    (st : SyncState) (t : AsanaTask) :
    (processTask true dts mId st t).deadlines = st.deadlines ∧
    (processTask true dts mId st t).nextId = st.nextId := by
  simp only [processTask]
  cases hdue : t.due_on with
  | none => simp
  | some due =>
    cases hmt : matchDeadlineType (pyStrip t.name) dts with
    | none => simp
    | some mt =>
      cases hfind : firstByDate (dlKey mId t.gid) st.deadlines with
      | some d => simp
      | none => simp

theorem foldl_task_dry_frame (dts : List (String × DeadlineType)) (mId : Nat)
    (ts : List AsanaTask) (st : SyncState) :
    (ts.foldl (processTask true dts mId) st).deadlines = st.deadlines ∧
    (ts.foldl (processTask true dts mId) st).nextId = st.nextId := by
  induction ts generalizing st with
  | nil => simp
  | cons t ts ih =>
    obtain ⟨hD, hN⟩ := processTask_dry_frame dts mId st t
    obtain ⟨ihD, ihN⟩ := ih (processTask true dts mId st t)
    exact ⟨by rw [List.foldl_cons, ihD, hD], by rw [List.foldl_cons, ihN, hN]⟩

theorem foldl_matter_dry_frame (dts : List (String × DeadlineType))
    (fetch : String → Except String (List AsanaTask))
    (ms : List Matter) (st : SyncState) :
    (ms.foldl (processMatter true dts fetch) st).deadlines = st.deadlines ∧
    (ms.foldl (processMatter true dts fetch) st).nextId = st.nextId := by
  induction ms generalizing st with
  | nil => simp
  | cons m ms ih =>
    have hstep : (processMatter true dts fetch st m).deadlines = st.deadlines ∧
        (processMatter true dts fetch st m).nextId = st.nextId := by
      simp only [processMatter]
      cases hfe : fetch m.asana_project_id with
      | error e => simp
      | ok ts => exact foldl_task_dry_frame dts m.id ts st
    obtain ⟨hD, hN⟩ := hstep
    obtain ⟨ihD, ihN⟩ := ih (processMatter true dts fetch st m)
    exact ⟨by rw [List.foldl_cons, ihD, hD], by rw [List.foldl_cons, ihN, hN]⟩

/-- C5: in dry-run mode neither job mutates persisted state — the
dispatcher delivers no email and writes no ReminderLog row, the reconciler
neither creates nor updates any Deadline row — while the dispatcher's
in-memory sent counter still counts every row that would have been sent. -/
theorem dry_run_frame (today : Int) (tr : Nat → Except String Unit)
    (rows : List DRow) (logs0 : List ReminderLog)
    (token : String) (mf : Option Nat) (matters : List Matter)
    (dtypes : List DeadlineType)
    (fetch : String → Except String (List AsanaTask))
    (dls0 : List Deadline) (nid : Nat) :
    (send_reminders today true tr rows logs0).logs = logs0 ∧
    (send_reminders today true tr rows logs0).emails = [] ∧
    (send_reminders today true tr rows logs0).sent_count =
      (upcomingActive rows).countP (qualifies today logs0) ∧
    (sync_asana token true mf matters dtypes fetch dls0 nid).deadlines = dls0 ∧
    (sync_asana token true mf matters dtypes fetch dls0 nid).nextId = nid := by
  obtain ⟨hL, hE, hS⟩ := foldl_dry_frame today tr (upcomingActive rows) ⟨0, 0, logs0, []⟩
  refine ⟨hL, hE, by simpa [send_reminders] using hS, ?_, ?_⟩
  · unfold sync_asana
    by_cases ht : token = ""
    · simp [ht]
    · simp only [ht, if_neg ht]
      exact (foldl_matter_dry_frame (buildTypeMap dtypes) fetch
        (syncMatters matters mf) ⟨dls0, nid, 0, 0, 0⟩).1
  · unfold sync_asana
    by_cases ht : token = ""
    · simp [ht]
    · simp only [ht, if_neg ht]
      exact (foldl_matter_dry_frame (buildTypeMap dtypes) fetch
        (syncMatters matters mf) ⟨dls0, nid, 0, 0, 0⟩).2

/-- C7: for a deadline the dispatcher decides to send (not dry-run),
successful delivery writes exactly one `sent` ReminderLog row and failed
delivery writes exactly one `failed` row carrying the error text; the run
then continues with the remaining rows — processing a list is always the
processing of its remainder after its prefix. -/
theorem delivery_logging (today : Int) (tr : Nat → Except String Unit)
    (st : SendState) (r : DRow)
    (h : shouldAttempt (r.deadline.date - today)
          (effective_reminder_days r.deadline r.dtype) = true)
    (he : r.client.email ≠ "")
    (hd : dedupHit st.logs r.deadline.id (r.deadline.date - today) today = false) :
    (tr r.deadline.id = Except.ok () →
      processDeadline today false tr st r =
        { st with sent_count := st.sent_count + 1,
                  logs := st.logs ++
                    [sentLog r.deadline r.client.email (r.deadline.date - today) today],
                  emails := st.emails ++ [(r.deadline.id, r.client.email)] }) ∧
    (∀ e, tr r.deadline.id = Except.error e →
      processDeadline today false tr st r =
        { st with logs := st.logs ++
            [failedLog r.deadline r.client.email (r.deadline.date - today) today e] }) ∧
    (∀ (rows₁ rows₂ : List DRow) (logs0 : List ReminderLog),
      send_reminders today false tr (rows₁ ++ rows₂) logs0 =
        (upcomingActive rows₂).foldl (processDeadline today false tr)
          (send_reminders today false tr rows₁ logs0)) := by
  refine ⟨fun hok => processDeadline_send_ok today tr st r h he hd hok,
          fun e herr => processDeadline_send_err today tr st r h he hd e herr, ?_⟩
  intro rows₁ rows₂ logs0
  simp [send_reminders, upcomingActive, List.filter_append, List.foldl_append]

theorem delivery_logging_witness :
    processDeadline 3 false (fun _ => Except.ok ()) ⟨0, 0, [], []⟩ sampleRow =
      { sent_count := 1, skip_count := 0,
        logs := [sentLog sampleDeadline "jane@example.com" 7 3],
        emails := [(1, "jane@example.com")] } := by
  have := (delivery_logging 3 (fun _ => Except.ok ()) ⟨0, 0, [], []⟩ sampleRow
    (by decide) (by decide) (by decide)).1 rfl
  simpa [sampleRow, sampleDeadline, sampleClient] using this

/-! ## Helper lemmas: updateFirst and find? -/

theorem find?_updateFirst_self {α : Type} (p : α → Bool) (f : α → α) (l : List α)
    (hpf : ∀ y, p (f y) = p y) (x : α) (h : l.find? p = some x) :
    (updateFirst p f l).find? p = some (f x) := by
  induction l with
  | nil => simp at h
  | cons a l ih =>
    by_cases hpa : p a = true
    · rw [List.find?_cons_of_pos _ hpa] at h
      injection h with h
      subst h
      simp only [updateFirst, if_pos hpa]
      exact List.find?_cons_of_pos _ (by rw [hpf]; exact hpa)
    · rw [List.find?_cons_of_neg _ hpa] at h
      simp only [updateFirst, if_neg hpa]
      rw [List.find?_cons_of_neg _ hpa]
      exact ih h

theorem find?_updateFirst_other {α : Type} (p q : α → Bool) (f : α → α) (l : List α)
    (hdisj : ∀ y, q y = true → p y = false ∧ p (f y) = false) :
    (updateFirst q f l).find? p = l.find? p := by
  induction l with
  | nil => rfl
  | cons a l ih =>
    by_cases hqa : q a = true
    · simp only [updateFirst, if_pos hqa]
      obtain ⟨h1, h2⟩ := hdisj a hqa
      rw [List.find?_cons_of_neg _ (by simp [h2]), List.find?_cons_of_neg _ (by simp [h1])]
    · simp only [updateFirst, if_neg hqa]
      by_cases hpa : p a = true
      · rw [List.find?_cons_of_pos _ hpa, List.find?_cons_of_pos _ hpa]
      · rw [List.find?_cons_of_neg _ hpa, List.find?_cons_of_neg _ hpa]
        exact ih

theorem dlKey_set_date (mId : Nat) (gid : String) (due : Int) (d : Deadline) :
    dlKey mId gid { d with date := due } = dlKey mId gid d := rfl

theorem dlKey_set_status (mId : Nat) (gid : String) (s : String) (d : Deadline) :
    dlKey mId gid { d with status := s } = dlKey mId gid d := rfl

/-- C4: for a matched external task with a due date, the reconciler updates
the existing Deadline its date-ordered `.first()` query returns under the
(matter, external task id) key — saving it with the external due date when
the two differ, completing it when the external task is complete and it is
still `upcoming`, counting one update per change — and when no row carries
the key it creates a new Deadline with the matched type, the due date, the
description truncated to 500 characters, the stored external id, and the
mirrored status. -/
theorem reconciler_upsert (dts : List (String × DeadlineType)) (mId : Nat)
    (st : SyncState) (task : AsanaTask) (due : Int) (mt : DeadlineType)
    (hdue : task.due_on = some due)
    (hmt : matchDeadlineType (pyStrip task.name) dts = some mt) :
    (∀ d, firstByDate (dlKey mId task.gid) st.deadlines = some d →
       (processTask false dts mId st task).created = st.created ∧
       (processTask false dts mId st task).updated =
         st.updated + (if d.date != due then 1 else 0)
                    + (if task.completed && d.status == "upcoming" then 1 else 0) ∧
       (processTask false dts mId st task).deadlines =
         (if task.completed && d.status == "upcoming"
          then saveRow { d with date := due, status := "completed" }
          else id)
         ((if d.date != due then saveRow { d with date := due } else id)
           st.deadlines)) ∧
    (firstByDate (dlKey mId task.gid) st.deadlines = none →
       processTask false dts mId st task =
         { st with
             deadlines := st.deadlines ++
               [⟨st.nextId, mId, mt.id, due, pyTake task.notes 500, [],
                 (if task.completed then "completed" else "upcoming"), task.gid⟩],
             nextId := st.nextId + 1,
             created := st.created + 1 }) := by
  constructor
  · intro d hfind
    simp only [processTask, hdue, hmt, hfind]
    by_cases hdc : (d.date != due) = true
    · by_cases hcomp : (task.completed && d.status == "upcoming") = true
      · exact ⟨by simp [hdc, hcomp], by simp [hdc, hcomp], by simp [hdc, hcomp]⟩
      · exact ⟨by simp [hdc, hcomp], by simp [hdc, hcomp], by simp [hdc, hcomp]⟩
    · have hdeq : d.date = due := by simpa using hdc
      by_cases hcomp : (task.completed && d.status == "upcoming") = true
      · refine ⟨by simp [hdc, hcomp], by simp [hdc, hcomp], ?_⟩
        rw [← hdeq]
        simp [hcomp]
      · exact ⟨by simp [hdc, hcomp], by simp [hdc, hcomp], by simp [hdc, hcomp]⟩
  · intro hfind
    simp only [processTask, hdue, hmt, hfind]
    simp

theorem reconciler_upsert_witness :
    processTask false sampleTypeMap 1 ⟨[], 5, 0, 0, 0⟩ sampleTask =
      ⟨[⟨5, 1, 1, 10, "check title", [], "upcoming", "g1"⟩], 6, 1, 0, 0⟩ := by
  have := (reconciler_upsert sampleTypeMap 1 ⟨[], 5, 0, 0, 0⟩ sampleTask 10
    ddExpiration (by decide) (by decide)).2 rfl
  simpa [sampleTask, ddExpiration] using this

/-! ## Helper lemmas: dedup ledger growth -/

theorem processDeadline_logs_extend (today : Int) (dry : Bool)
    (tr : Nat → Except String Unit) (st : SendState) (r : DRow) :
    ∃ t, (processDeadline today dry tr st r).logs = st.logs ++ t := by
  by_cases h : shouldAttempt (r.deadline.date - today)
      (effective_reminder_days r.deadline r.dtype) = true
  · by_cases he : r.client.email = ""
    · exact ⟨[], by simp [processDeadline_no_email today dry tr st r h he]⟩
    · by_cases hd : dedupHit st.logs r.deadline.id (r.deadline.date - today) today = true
      · exact ⟨[], by simp [processDeadline_dedup_skip today dry tr st r h he hd]⟩
      · cases dry with
        | true =>
          exact ⟨[], by simp [processDeadline_dry_send today tr st r h he (by simpa using hd)]⟩
        | false =>
          cases hok : tr r.deadline.id with
          | ok u =>
            cases u
            exact ⟨[sentLog r.deadline r.client.email (r.deadline.date - today) today],
              by rw [processDeadline_send_ok today tr st r h he (by simpa using hd) hok]⟩
          | error e =>
            exact ⟨[failedLog r.deadline r.client.email (r.deadline.date - today) today e],
              by rw [processDeadline_send_err today tr st r h he (by simpa using hd) e hok]⟩
  · exact ⟨[], by simp [processDeadline_no_attempt today dry tr st r (by simpa using h)]⟩

theorem foldl_logs_extend (today : Int) (dry : Bool) (tr : Nat → Except String Unit)
    (l : List DRow) (st : SendState) :
    ∃ t, (l.foldl (processDeadline today dry tr) st).logs = st.logs ++ t := by
  induction l generalizing st with
  | nil => exact ⟨[], by simp⟩
  | cons x xs ih =>
    obtain ⟨t1, h1⟩ := processDeadline_logs_extend today dry tr st x
    obtain ⟨t2, h2⟩ := ih (processDeadline today dry tr st x)
    exact ⟨t1 ++ t2, by rw [List.foldl_cons, h2, h1, List.append_assoc]⟩

theorem dedupHit_append (logs t : List ReminderLog) (i : Nat) (du td : Int)
    (h : dedupHit logs i du td = true) : dedupHit (logs ++ t) i du td = true := by
  unfold dedupHit at h ⊢
  rw [List.any_append, h]
  rfl

theorem dedupHit_after_self (today : Int) (tr : Nat → Except String Unit)
    (st : SendState) (r : DRow)
    (h : shouldAttempt (r.deadline.date - today)
          (effective_reminder_days r.deadline r.dtype) = true)
    (he : r.client.email ≠ "")
    (hok : tr r.deadline.id = Except.ok ()) :
    dedupHit (processDeadline today false tr st r).logs
      r.deadline.id (r.deadline.date - today) today = true := by
  by_cases hd : dedupHit st.logs r.deadline.id (r.deadline.date - today) today = true
  · rw [processDeadline_dedup_skip today false tr st r h he hd]
    exact hd
  · rw [processDeadline_send_ok today tr st r h he (by simpa using hd) hok]
    simp [dedupHit, List.any_append, sentLog]

theorem run1_covers (today : Int) (tr : Nat → Except String Unit)
    (l : List DRow) (r : DRow)
    (h : shouldAttempt (r.deadline.date - today)
          (effective_reminder_days r.deadline r.dtype) = true)
    (he : r.client.email ≠ "")
    (hok : tr r.deadline.id = Except.ok ()) :
    ∀ st : SendState, r ∈ l →
      dedupHit (l.foldl (processDeadline today false tr) st).logs
        r.deadline.id (r.deadline.date - today) today = true := by
  induction l with
  | nil => intro st hr; simp at hr
  | cons x xs ih =>
    intro st hr
    rw [List.foldl_cons]
    rcases List.mem_cons.mp hr with hEq | hMem
    · subst hEq
      have h1 := dedupHit_after_self today tr st r h he hok
      obtain ⟨t, ht⟩ :=
        foldl_logs_extend today false tr xs (processDeadline today false tr st r)
      rw [ht]
      exact dedupHit_append _ _ _ _ _ h1
    · exact ih (processDeadline today false tr st x) hMem

theorem run2_no_send (today : Int) (tr : Nat → Except String Unit)
    (l : List DRow) (L : List ReminderLog)
    (hcov : ∀ r ∈ l,
      shouldAttempt (r.deadline.date - today)
        (effective_reminder_days r.deadline r.dtype) = true →
      r.client.email ≠ "" → tr r.deadline.id = Except.ok () →
      dedupHit L r.deadline.id (r.deadline.date - today) today = true) :
    ∀ st : SendState, (∃ t, st.logs = L ++ t) →
      (l.foldl (processDeadline today false tr) st).emails = st.emails ∧
      (l.foldl (processDeadline today false tr) st).sent_count = st.sent_count := by
  induction l with
  | nil => intro st _; simp
  | cons x xs ih =>
    intro st hsub
    obtain ⟨t, ht⟩ := hsub
    rw [List.foldl_cons]
    have hstep : (processDeadline today false tr st x).emails = st.emails ∧
        (processDeadline today false tr st x).sent_count = st.sent_count ∧
        (∃ t', (processDeadline today false tr st x).logs = L ++ t') := by
      by_cases h : shouldAttempt (x.deadline.date - today)
          (effective_reminder_days x.deadline x.dtype) = true
      · by_cases he : x.client.email = ""
        · rw [processDeadline_no_email today false tr st x h he]
          exact ⟨rfl, rfl, t, ht⟩
        · by_cases hd : dedupHit st.logs x.deadline.id (x.deadline.date - today) today = true
          · rw [processDeadline_dedup_skip today false tr st x h he hd]
            exact ⟨rfl, rfl, t, ht⟩
          · cases hok : tr x.deadline.id with
            | ok u =>
              cases u
              have hc := hcov x (by simp) h he hok
              have hcontra : dedupHit st.logs x.deadline.id
                  (x.deadline.date - today) today = true := by
                rw [ht]
                exact dedupHit_append _ _ _ _ _ hc
              exact absurd hcontra hd
            | error e =>
              rw [processDeadline_send_err today tr st x h he (by simpa using hd) e hok]
              exact ⟨rfl, rfl,
                t ++ [failedLog x.deadline x.client.email (x.deadline.date - today) today e],
                by rw [ht, List.append_assoc]⟩
      · rw [processDeadline_no_attempt today false tr st x (by simpa using h)]
        exact ⟨rfl, rfl, t, ht⟩
    obtain ⟨hE, hS, hL⟩ := hstep
    have hrest := ih (fun q hq => hcov q (List.mem_cons_of_mem x hq))
      (processDeadline today false tr st x) hL
    exact ⟨by rw [hrest.1, hE], by rw [hrest.2, hS]⟩

/-- C2: a ReminderLog row with status `sent` for the same (deadline,
days_until) pair dated today makes the dispatcher skip the deadline — no
send, no new log, skip counter incremented; a `failed` row for the same
pair and day triggers no such dedup hit; consequently a full second run the
same day on top of the first run's ledger delivers no email and reports
zero sent. -/
theorem dedup_idempotency (today : Int) (tr : Nat → Except String Unit)
    (rows : List DRow) (logs0 : List ReminderLog)
    (dry : Bool) (st : SendState) (r : DRow)
    (h : shouldAttempt (r.deadline.date - today)
          (effective_reminder_days r.deadline r.dtype) = true)
    (he : r.client.email ≠ "") :
    (dedupHit st.logs r.deadline.id (r.deadline.date - today) today = true →
      processDeadline today dry tr st r = { st with skip_count := st.skip_count + 1 }) ∧
    (∀ (d : Deadline) (recipient : String) (du t : Int) (e : String),
      dedupHit [failedLog d recipient du t e] d.id du t = false) ∧
    ((send_reminders today false tr rows
        (send_reminders today false tr rows logs0).logs).emails = [] ∧
     (send_reminders today false tr rows
        (send_reminders today false tr rows logs0).logs).sent_count = 0) := by
  refine ⟨fun hd => processDeadline_dedup_skip today dry tr st r h he hd, ?_, ?_⟩
  · intro d recipient du t e
    simp [dedupHit, failedLog]
  · have hcov : ∀ x ∈ upcomingActive rows,
        shouldAttempt (x.deadline.date - today)
          (effective_reminder_days x.deadline x.dtype) = true →
        x.client.email ≠ "" → tr x.deadline.id = Except.ok () →
        dedupHit (send_reminders today false tr rows logs0).logs
          x.deadline.id (x.deadline.date - today) today = true := by
      intro x hx h1 h2 h3
      exact run1_covers today tr (upcomingActive rows) x h1 h2 h3 ⟨0, 0, logs0, []⟩ hx
    have hrun2 := run2_no_send today tr (upcomingActive rows)
      (send_reminders today false tr rows logs0).logs hcov
      ⟨0, 0, (send_reminders today false tr rows logs0).logs, []⟩ ⟨[], by simp⟩
    exact ⟨hrun2.1, hrun2.2⟩

theorem dedup_idempotency_witness :
    processDeadline 3 false (fun _ => Except.ok ())
      ⟨0, 0, [sentLog sampleDeadline "jane@example.com" 7 3], []⟩ sampleRow =
      ⟨0, 1, [sentLog sampleDeadline "jane@example.com" 7 3], []⟩ := by
  have := (dedup_idempotency 3 (fun _ => Except.ok ()) [] [] false
    ⟨0, 0, [sentLog sampleDeadline "jane@example.com" 7 3], []⟩ sampleRow
    (by decide) (by decide)).1 (by decide)
  simpa using this

/-! ## Helper lemmas: reconciler idempotence -/

theorem foldl_matters_eq_flat (dry : Bool) (dts : List (String × DeadlineType))
    (fetch : String → Except String (List AsanaTask)) (ms : List Matter) :
    ∀ st : SyncState, ms.foldl (processMatter dry dts fetch) st =
      (flatTasks fetch ms).foldl (processPair dry dts) st := by
  induction ms with
  | nil => intro st; rfl
  | cons m ms ih =>
    intro st
    have hstep : processMatter dry dts fetch st m =
        (match fetch m.asana_project_id with
         | .error _ => ([] : List (Nat × AsanaTask))
         | .ok ts => ts.map (fun t => (m.id, t))).foldl (processPair dry dts) st := by
      simp only [processMatter]
      cases hf : fetch m.asana_project_id with
      | error e => rfl
      | ok ts =>
        rw [List.foldl_map]
        rfl
    rw [List.foldl_cons, flatTasks, List.foldl_append, ih, hstep]

theorem processTaskU_settles (dts : List (String × DeadlineType)) (mId : Nat)
    (st : SyncState) (t : AsanaTask) :
    settled dts mId (processTaskU false dts mId st t).deadlines t := by
  intro due hdue hmt
  obtain ⟨mt, hmt'⟩ := Option.isSome_iff_exists.mp hmt
  simp only [processTaskU, hdue, hmt']
  cases hfind : st.deadlines.find? (dlKey mId t.gid) with
  | some d =>
    have hpf1 : ∀ y : Deadline,
        dlKey mId t.gid { y with date := due } = dlKey mId t.gid y := fun y => rfl
    have hpf2 : ∀ y : Deadline,
        dlKey mId t.gid { y with status := "completed" } = dlKey mId t.gid y := fun y => rfl
    by_cases hdc : (d.date != due) = true
    · have hfind1 := find?_updateFirst_self _ _ st.deadlines hpf1 d hfind
      by_cases hcomp : (t.completed && d.status == "upcoming") = true
      · refine ⟨{ d with date := due, status := "completed" }, ?_, rfl, ?_⟩
        · simp only [hdc, hcomp, Bool.not_false, Bool.and_true, if_true]
          exact find?_updateFirst_self _ _ _ hpf2 _ hfind1
        · rintro ⟨_, hst⟩
          simp at hst
      · refine ⟨{ d with date := due }, ?_, rfl, ?_⟩
        · simp only [hdc, hcomp, Bool.not_false, Bool.and_true, if_true, if_false]
          simpa [hcomp] using hfind1
        · rintro ⟨hc, hst⟩
          simp only [] at hst
          simp [hc, hst] at hcomp
    · have hdeq : d.date = due := by simpa using hdc
      by_cases hcomp : (t.completed && d.status == "upcoming") = true
      · refine ⟨{ d with status := "completed" }, ?_, hdeq, ?_⟩
        · simp only [hdc, hcomp, Bool.not_false, Bool.and_true, Bool.false_and,
            if_true, if_false]
          simpa [hdc] using find?_updateFirst_self _ _ _ hpf2 d hfind
        · rintro ⟨_, hst⟩
          simp at hst
      · refine ⟨d, ?_, hdeq, ?_⟩
        · simpa [hdc, hcomp] using hfind
        · rintro ⟨hc, hst⟩
          simp [hc, hst] at hcomp
  | none =>
    refine ⟨⟨st.nextId, mId, mt.id, due, pyTake t.notes 500, [],
      (if t.completed then "completed" else "upcoming"), t.gid⟩, ?_, rfl, ?_⟩
    · simp only [Bool.false_eq_true, if_false]
      rw [List.find?_append, hfind]
      simp [dlKey]
    · rintro ⟨hc, hst⟩
      simp only [hc, if_true] at hst
      simp at hst

theorem processPairU_preserves_settled (dts : List (String × DeadlineType))
    (p q : Nat × AsanaTask) (st : SyncState)
    (hkey : pairKey q ≠ pairKey p)
    (hs : settledP dts st.deadlines p) :
    settledP dts (processPairU false dts st q).deadlines p := by
  intro due hdue hmt
  obtain ⟨d, hfind, hdate, hstat⟩ := hs due hdue hmt
  suffices h : (processPairU false dts st q).deadlines.find? (dlKey p.1 p.2.gid) = some d from
    ⟨d, h, hdate, hstat⟩
  simp only [processPairU, processTaskU]
  cases hdueq : q.2.due_on with
  | none => simpa using hfind
  | some dq =>
    cases hmtq : matchDeadlineType (pyStrip q.2.name) dts with
    | none => simpa using hfind
    | some mtq =>
      have hbase : ∀ y : Deadline, dlKey q.1 q.2.gid y = true →
          dlKey p.1 p.2.gid y = false := by
        intro y hy
        by_contra hpy
        have hpy' : dlKey p.1 p.2.gid y = true := by simpa using hpy
        simp only [dlKey, Bool.and_eq_true, beq_iff_eq] at hy hpy'
        apply hkey
        show (q.1, q.2.gid) = (p.1, p.2.gid)
        rw [← hy.2, ← hy.1, hpy'.1, hpy'.2]
      cases hfindq : st.deadlines.find? (dlKey q.1 q.2.gid) with
      | some dq' =>
        have hdisjD : ∀ y : Deadline, dlKey q.1 q.2.gid y = true →
            dlKey p.1 p.2.gid y = false ∧
            dlKey p.1 p.2.gid { y with date := dq } = false := by
          intro y hy
          exact ⟨hbase y hy, hbase y hy⟩
        have hdisjS : ∀ y : Deadline, dlKey q.1 q.2.gid y = true →
            dlKey p.1 p.2.gid y = false ∧
            dlKey p.1 p.2.gid { y with status := "completed" } = false := by
          intro y hy
          exact ⟨hbase y hy, hbase y hy⟩
        have hEqD : ∀ dls : List Deadline,
            (updateFirst (dlKey q.1 q.2.gid) (fun y => { y with date := dq }) dls).find?
              (dlKey p.1 p.2.gid) = dls.find? (dlKey p.1 p.2.gid) :=
          fun dls => find?_updateFirst_other _ _ _ dls hdisjD
        have hEqS : ∀ dls : List Deadline,
            (updateFirst (dlKey q.1 q.2.gid)
                (fun y => { y with status := "completed" }) dls).find?
              (dlKey p.1 p.2.gid) = dls.find? (dlKey p.1 p.2.gid) :=
          fun dls => find?_updateFirst_other _ _ _ dls hdisjS
        by_cases hc1 : (dq'.date != dq) = true <;>
          by_cases hc2 : (q.2.completed && dq'.status == "upcoming") = true <;>
            simp [hc1, hc2, hEqD, hEqS, hfind]
      | none =>
        simp only [Bool.false_eq_true, if_false]
        rw [List.find?_append, hfind]
        rfl

theorem foldl_preserves_settledU (dts : List (String × DeadlineType))
    (l : List (Nat × AsanaTask)) (p : Nat × AsanaTask)
    (hk : ∀ q ∈ l, pairKey q ≠ pairKey p) :
    ∀ st : SyncState, settledP dts st.deadlines p →
      settledP dts (l.foldl (processPairU false dts) st).deadlines p := by
  induction l with
  | nil => intro st hs; exact hs
  | cons x xs ih =>
    intro st hs
    rw [List.foldl_cons]
    exact ih (fun q hq => hk q (List.mem_cons_of_mem x hq))
      (processPairU false dts st x)
      (processPairU_preserves_settled dts p x st (hk x (List.mem_cons_self x xs)) hs)

theorem run1_settlesU (dts : List (String × DeadlineType))
    (l : List (Nat × AsanaTask)) (hnd : (l.map pairKey).Nodup) :
    ∀ st : SyncState, ∀ p ∈ l,
      settledP dts (l.foldl (processPairU false dts) st).deadlines p := by
  induction l with
  | nil => intro st p hp; simp at hp
  | cons x xs ih =>
    rw [List.map_cons, List.nodup_cons] at hnd
    obtain ⟨hxnot, htail⟩ := hnd
    intro st p hp
    rw [List.foldl_cons]
    rcases List.mem_cons.mp hp with hEq | hMem
    · subst hEq
      have hk : ∀ q ∈ xs, pairKey q ≠ pairKey p := by
        intro q hq hEq2
        exact hxnot (hEq2 ▸ List.mem_map_of_mem pairKey hq)
      exact foldl_preserves_settledU dts xs p hk (processPairU false dts st p)
        (processTaskU_settles dts p.1 st p.2)
    · exact ih htail (processPairU false dts st x) p hMem

theorem run2_frozenU (dts : List (String × DeadlineType))
    (l : List (Nat × AsanaTask)) :
    ∀ st : SyncState, (∀ p ∈ l, settledP dts st.deadlines p) →
      (l.foldl (processPairU false dts) st).deadlines = st.deadlines ∧
      (l.foldl (processPairU false dts) st).created = st.created ∧
      (l.foldl (processPairU false dts) st).updated = st.updated := by
  induction l with
  | nil => intro st _; exact ⟨rfl, rfl, rfl⟩
  | cons x xs ih =>
    intro st hs
    rw [List.foldl_cons]
    have hstep : (processPairU false dts st x).deadlines = st.deadlines ∧
        (processPairU false dts st x).created = st.created ∧
        (processPairU false dts st x).updated = st.updated := by
      simp only [processPairU, processTaskU]
      cases hdue : x.2.due_on with
      | none => simp
      | some due =>
        cases hmt : matchDeadlineType (pyStrip x.2.name) dts with
        | none => simp
        | some mt =>
          obtain ⟨d, hfind, hdate, hstat⟩ :=
            hs x (List.mem_cons_self x xs) due hdue (by rw [hmt]; rfl)
          rw [hfind]
          have hdc : (d.date != due) = false := by simp [hdate]
          have hcomp : (x.2.completed && d.status == "upcoming") = false := by
            cases hcb : x.2.completed with
            | false => simp
            | true =>
              have hne : d.status ≠ "upcoming" := fun hst => hstat ⟨hcb, hst⟩
              simp [hne]
          simp [hdc, hcomp]
    obtain ⟨hD, hC, hU⟩ := hstep
    have hs' : ∀ p ∈ xs, settledP dts (processPairU false dts st x).deadlines p := by
      intro p hp
      rw [hD]
      exact hs p (List.mem_cons_of_mem x hp)
    have hrest := ih (processPairU false dts st x) hs'
    exact ⟨by rw [hrest.1, hD], by rw [hrest.2.1, hC], by rw [hrest.2.2, hU]⟩


/-! ## Helper lemmas: the date-ordered query on well-formed tables -/

theorem map_id_of_mem {α : Type} (f : α → α) (l : List α) (h : ∀ x ∈ l, f x = x) :
    l.map f = l := by
  induction l with
  | nil => rfl
  | cons a l ih =>
    rw [List.map_cons, h a (by simp), ih (fun x hx => h x (by simp [hx]))]

theorem firstByDate_eq_find? (mId : Nat) (gid : String) (dls : List Deadline)
    (hk : (dls.map (fun d => (d.matterId, d.asana_task_id))).Nodup) :
    firstByDate (dlKey mId gid) dls = dls.find? (dlKey mId gid) := by
  induction dls with
  | nil => rfl
  | cons a l ih =>
    rw [List.map_cons, List.nodup_cons] at hk
    obtain ⟨ha, hl⟩ := hk
    by_cases hpa : dlKey mId gid a = true
    · have hnone : l.filter (dlKey mId gid) = [] := by
        rw [List.filter_eq_nil_iff]
        intro x hx hpx
        apply ha
        have hxa : (x.matterId, x.asana_task_id) = (a.matterId, a.asana_task_id) := by
          simp only [dlKey, Bool.and_eq_true, beq_iff_eq] at hpa hpx
          rw [hpx.1, hpx.2, hpa.1, hpa.2]
        rw [← hxa]
        exact List.mem_map_of_mem _ hx
      rw [List.find?_cons_of_pos _ hpa]
      unfold firstByDate
      rw [List.filter_cons_of_pos hpa, hnone]
      rfl
    · rw [List.find?_cons_of_neg _ hpa, ← ih hl]
      unfold firstByDate
      rw [List.filter_cons_of_neg hpa]

theorem saveRow_eq_updateFirst (p : Deadline → Bool) (f : Deadline → Deadline) :
    ∀ (l : List Deadline) (d : Deadline),
      (l.map (fun x => x.id)).Nodup → l.find? p = some d → (f d).id = d.id →
      saveRow (f d) l = updateFirst p f l := by
  intro l
  induction l with
  | nil => intro d _ hfind _; simp at hfind
  | cons a l ih =>
    intro d hnd hfind hfid
    rw [List.map_cons, List.nodup_cons] at hnd
    obtain ⟨hna, hnl⟩ := hnd
    by_cases hpa : p a = true
    · rw [List.find?_cons_of_pos _ hpa] at hfind
      injection hfind with hfind
      subst hfind
      simp only [saveRow, List.map_cons, updateFirst, if_pos hpa]
      have hhead : (if (a.id == (f a).id) = true then f a else a) = f a := by
        rw [hfid]
        simp
      have htail : l.map (fun x => if x.id == (f a).id then f a else x) = l := by
        apply map_id_of_mem
        intro x hx
        have hxne : (x.id == (f a).id) = false := by
          rw [hfid]
          simp only [beq_eq_false_iff_ne, ne_eq]
          intro hEq
          exact hna (hEq ▸ List.mem_map_of_mem _ hx)
        simp [hxne]
      rw [hhead, htail]
    · rw [List.find?_cons_of_neg _ hpa] at hfind
      have hd_mem : d ∈ l := List.mem_of_find?_eq_some hfind
      have hane : (a.id == (f d).id) = false := by
        rw [hfid]
        simp only [beq_eq_false_iff_ne, ne_eq]
        intro hEq
        exact hna (by rw [hEq]; exact List.mem_map_of_mem _ hd_mem)
      simp only [saveRow, List.map_cons, hane, updateFirst, if_neg hpa,
        Bool.false_eq_true, if_false]
      rw [← saveRow, ih d hnl hfind hfid]

theorem updateFirst_map_eq {α β : Type} (p : α → Bool) (f : α → α) (g : α → β)
    (hg : ∀ x, g (f x) = g x) (l : List α) :
    (updateFirst p f l).map g = l.map g := by
  induction l with
  | nil => rfl
  | cons a l ih =>
    by_cases hpa : p a = true
    · simp [updateFirst, hpa, hg]
    · simp [updateFirst, hpa, ih]

theorem updateFirst_good (n : Nat) (p : Deadline → Bool) (f : Deadline → Deadline)
    (hfi : ∀ x, (f x).id = x.id)
    (hfk : ∀ x, ((f x).matterId, (f x).asana_task_id) = (x.matterId, x.asana_task_id))
    (dls : List Deadline) (hg : goodTable dls n) : goodTable (updateFirst p f dls) n := by
  obtain ⟨hid, hkey, hlt⟩ := hg
  refine ⟨?_, ?_, ?_⟩
  · rw [updateFirst_map_eq p f _ hfi]
    exact hid
  · rw [updateFirst_map_eq p f _ hfk]
    exact hkey
  · intro d hd
    have hmem : d.id ∈ (updateFirst p f dls).map (fun x => x.id) :=
      List.mem_map_of_mem _ hd
    rw [updateFirst_map_eq p f _ hfi] at hmem
    obtain ⟨y, hy, hyid⟩ := List.mem_map.mp hmem
    rw [← hyid]
    exact hlt y hy

theorem processTaskU_good (dts : List (String × DeadlineType)) (mId : Nat)
    (st : SyncState) (t : AsanaTask)
    (hg : goodTable st.deadlines st.nextId) :
    goodTable (processTaskU false dts mId st t).deadlines
      (processTaskU false dts mId st t).nextId := by
  obtain ⟨hid, hkey, hlt⟩ := hg
  simp only [processTaskU]
  cases hdue : t.due_on with
  | none => exact ⟨hid, hkey, hlt⟩
  | some due =>
    cases hmt : matchDeadlineType (pyStrip t.name) dts with
    | none => exact ⟨hid, hkey, hlt⟩
    | some mt =>
      cases hfind : st.deadlines.find? (dlKey mId t.gid) with
      | some d =>
        by_cases hc1 : (d.date != due) = true <;>
          by_cases hc2 : (t.completed && d.status == "upcoming") = true <;>
            simp only [hc1, hc2, Bool.not_false, Bool.and_true, Bool.false_and,
              if_true, if_false, Bool.false_eq_true]
        · exact updateFirst_good st.nextId (dlKey mId t.gid)
            (fun x => { x with status := "completed" }) (fun x => rfl) (fun x => rfl) _
            (updateFirst_good st.nextId (dlKey mId t.gid)
              (fun x => { x with date := due }) (fun x => rfl) (fun x => rfl) _
              ⟨hid, hkey, hlt⟩)
        · exact updateFirst_good st.nextId (dlKey mId t.gid)
            (fun x => { x with date := due }) (fun x => rfl) (fun x => rfl) _
            ⟨hid, hkey, hlt⟩
        · exact updateFirst_good st.nextId (dlKey mId t.gid)
            (fun x => { x with status := "completed" }) (fun x => rfl) (fun x => rfl) _
            ⟨hid, hkey, hlt⟩
        · exact ⟨hid, hkey, hlt⟩
      | none =>
        simp only [Bool.false_eq_true, if_false]
        refine ⟨?_, ?_, ?_⟩
        · rw [List.map_append, List.nodup_append]
          refine ⟨hid, by simp, ?_⟩
          intro x hx hx2
          simp only [List.map_cons, List.map_nil, List.mem_cons,
            List.not_mem_nil, or_false] at hx2
          subst hx2
          obtain ⟨y, hy, hyid⟩ := List.mem_map.mp hx
          have hbound := hlt y hy
          have hyid2 : y.id = st.nextId := by simpa using hyid
          omega
        · rw [List.map_append, List.nodup_append]
          refine ⟨hkey, by simp, ?_⟩
          intro x hx hx2
          simp only [List.map_cons, List.map_nil, List.mem_cons,
            List.not_mem_nil, or_false] at hx2
          subst hx2
          obtain ⟨y, hy, hyk⟩ := List.mem_map.mp hx
          have hyk2 : (y.matterId, y.asana_task_id) = (mId, t.gid) := by
            simpa using hyk
          rw [List.find?_eq_none] at hfind
          apply hfind y hy
          have h1 : y.matterId = mId := congrArg Prod.fst hyk2
          have h2 : y.asana_task_id = t.gid := congrArg Prod.snd hyk2
          simp [dlKey, h1, h2]
        · intro d hd
          rcases List.mem_append.mp hd with hmem | hmem
          · have := hlt d hmem
            omega
          · simp only [List.mem_singleton] at hmem
            subst hmem
            show st.nextId < st.nextId + 1
            omega

theorem processTask_eq_uniq (dts : List (String × DeadlineType)) (mId : Nat)
    (st : SyncState) (t : AsanaTask)
    (hg : goodTable st.deadlines st.nextId) :
    processTask false dts mId st t = processTaskU false dts mId st t := by
  obtain ⟨hid, hkey, hlt⟩ := hg
  simp only [processTask, processTaskU]
  cases hdue : t.due_on with
  | none => rfl
  | some due =>
    cases hmt : matchDeadlineType (pyStrip t.name) dts with
    | none => rfl
    | some mt =>
      rw [firstByDate_eq_find? mId t.gid st.deadlines hkey]
      cases hfind : st.deadlines.find? (dlKey mId t.gid) with
      | none => rfl
      | some d =>
        have hsave1 : saveRow { d with date := due } st.deadlines =
            updateFirst (dlKey mId t.gid) (fun x => { x with date := due })
              st.deadlines :=
          saveRow_eq_updateFirst (dlKey mId t.gid) (fun x => { x with date := due })
            st.deadlines d hid hfind rfl
        by_cases hc1 : (d.date != due) = true <;>
          by_cases hc2 : (t.completed && d.status == "upcoming") = true <;>
            simp only [hc1, hc2, Bool.not_false, Bool.and_true, Bool.false_and,
              if_true, if_false, Bool.false_eq_true]
        · have hnd1 : ((updateFirst (dlKey mId t.gid) (fun x => { x with date := due })
              st.deadlines).map (fun x => x.id)).Nodup := by
            rw [updateFirst_map_eq (dlKey mId t.gid) (fun x => { x with date := due })
              (fun x => x.id) (fun x => rfl)]
            exact hid
          have hfind1 : (updateFirst (dlKey mId t.gid) (fun x => { x with date := due })
              st.deadlines).find? (dlKey mId t.gid) = some { d with date := due } :=
            find?_updateFirst_self (dlKey mId t.gid) (fun x => { x with date := due })
              st.deadlines (fun y => rfl) d hfind
          have hsave2 : saveRow { d with date := due, status := "completed" }
              (updateFirst (dlKey mId t.gid) (fun x => { x with date := due })
                st.deadlines) =
              updateFirst (dlKey mId t.gid) (fun x => { x with status := "completed" })
                (updateFirst (dlKey mId t.gid) (fun x => { x with date := due })
                  st.deadlines) :=
            saveRow_eq_updateFirst (dlKey mId t.gid)
              (fun x => { x with status := "completed" }) _
              { d with date := due } hnd1 hfind1 rfl
          rw [hsave1, hsave2]
        · rw [hsave1]
        · have hsave2 : saveRow { d with status := "completed" } st.deadlines =
              updateFirst (dlKey mId t.gid) (fun x => { x with status := "completed" })
                st.deadlines :=
            saveRow_eq_updateFirst (dlKey mId t.gid)
              (fun x => { x with status := "completed" })
              st.deadlines d hid hfind rfl
          rw [hsave2]

theorem foldl_pairsU (dts : List (String × DeadlineType))
    (l : List (Nat × AsanaTask)) :
    ∀ st : SyncState, goodTable st.deadlines st.nextId →
      l.foldl (processPair false dts) st = l.foldl (processPairU false dts) st ∧
      goodTable ((l.foldl (processPairU false dts) st).deadlines)
        ((l.foldl (processPairU false dts) st).nextId) := by
  induction l with
  | nil => intro st hg; exact ⟨rfl, hg⟩
  | cons x xs ih =>
    intro st hg
    rw [List.foldl_cons, List.foldl_cons]
    have hbr : processPair false dts st x = processPairU false dts st x := by
      simp only [processPair, processPairU]
      exact processTask_eq_uniq dts x.1 st x.2 hg
    have hgood : goodTable ((processPairU false dts st x).deadlines)
        ((processPairU false dts st x).nextId) := by
      simp only [processPairU]
      exact processTaskU_good dts x.1 st x.2 hg
    rw [hbr]
    exact ih (processPairU false dts st x) hgood

/-- C6 counterexample: from a table with two rows sharing the
(matter, external task id) key — ids 1 and 2, dates 5 and 3 — and one
unchanged external task due on day 10, the first run updates the
earliest-dated row (id 2) to date 10, which changes which row the
date-ordered `.first()` returns, so the second run updates row id 1 as
well: one additional update, not zero. -/
theorem sync_idempotent_counterexample :
    (sync_asana "tok" false none [sampleMatter] [ddExpiration]
       (fun _ => Except.ok [⟨"DD Expiration", some 10, false, "g1", ""⟩])
       (sync_asana "tok" false none [sampleMatter] [ddExpiration]
          (fun _ => Except.ok [⟨"DD Expiration", some 10, false, "g1", ""⟩])
          [⟨1, 1, 1, 5, "", [], "upcoming", "g1"⟩,
           ⟨2, 1, 1, 3, "", [], "upcoming", "g1"⟩] 3).deadlines
       (sync_asana "tok" false none [sampleMatter] [ddExpiration]
          (fun _ => Except.ok [⟨"DD Expiration", some 10, false, "g1", ""⟩])
          [⟨1, 1, 1, 5, "", [], "upcoming", "g1"⟩,
           ⟨2, 1, 1, 3, "", [], "upcoming", "g1"⟩] 3).nextId).updated = 1 := by
  decide

/-- C6 (amended): with unchanged external data, a second reconciler run on
top of the first run's Deadline table performs zero additional creates and
zero additional updates and leaves the table exactly as the first run left
it, provided the processed (matter, task id) reconciliation keys are
pairwise distinct (as Asana gids are) and the initial table is well-formed
as the database guarantees: unique primary keys below the fresh-pk counter
and at most one row per (matter, external task id) key — without the table
hypothesis the date-ordered `.first()` can flip between duplicate-key rows
and the second run updates again. -/
theorem sync_idempotent (token : String) (mf : Option Nat) (matters : List Matter)
    (dtypes : List DeadlineType) (fetch : String → Except String (List AsanaTask))
    (dls0 : List Deadline) (nid : Nat)
    (hnd : ((flatTasks fetch (syncMatters matters mf)).map pairKey).Nodup)
    (hg : goodTable dls0 nid) :
    (sync_asana token false mf matters dtypes fetch
       (sync_asana token false mf matters dtypes fetch dls0 nid).deadlines
       (sync_asana token false mf matters dtypes fetch dls0 nid).nextId).created = 0 ∧
    (sync_asana token false mf matters dtypes fetch
       (sync_asana token false mf matters dtypes fetch dls0 nid).deadlines
       (sync_asana token false mf matters dtypes fetch dls0 nid).nextId).updated = 0 ∧
    (sync_asana token false mf matters dtypes fetch
       (sync_asana token false mf matters dtypes fetch dls0 nid).deadlines
       (sync_asana token false mf matters dtypes fetch dls0 nid).nextId).deadlines =
      (sync_asana token false mf matters dtypes fetch dls0 nid).deadlines := by
  by_cases ht : token = ""
  · simp [sync_asana, ht]
  · have hunf : ∀ (dls : List Deadline) (n : Nat),
        sync_asana token false mf matters dtypes fetch dls n =
          (flatTasks fetch (syncMatters matters mf)).foldl
            (processPair false (buildTypeMap dtypes)) ⟨dls, n, 0, 0, 0⟩ := by
      intro dls n
      simp only [sync_asana, if_neg ht]
      exact foldl_matters_eq_flat false (buildTypeMap dtypes) fetch
        (syncMatters matters mf) _
    obtain ⟨hbr1, hgood1⟩ := foldl_pairsU (buildTypeMap dtypes)
      (flatTasks fetch (syncMatters matters mf)) ⟨dls0, nid, 0, 0, 0⟩ hg
    have h1 : sync_asana token false mf matters dtypes fetch dls0 nid =
        (flatTasks fetch (syncMatters matters mf)).foldl
          (processPairU false (buildTypeMap dtypes)) ⟨dls0, nid, 0, 0, 0⟩ := by
      rw [hunf dls0 nid]
      exact hbr1
    have hgood1' : goodTable
        ((sync_asana token false mf matters dtypes fetch dls0 nid).deadlines)
        ((sync_asana token false mf matters dtypes fetch dls0 nid).nextId) := by
      rw [h1]
      exact hgood1
    have hset' : ∀ p ∈ flatTasks fetch (syncMatters matters mf),
        settledP (buildTypeMap dtypes)
          ((sync_asana token false mf matters dtypes fetch dls0 nid).deadlines) p := by
      intro p hp
      rw [h1]
      exact run1_settlesU (buildTypeMap dtypes)
        (flatTasks fetch (syncMatters matters mf)) hnd ⟨dls0, nid, 0, 0, 0⟩ p hp
    have h2 : sync_asana token false mf matters dtypes fetch
        (sync_asana token false mf matters dtypes fetch dls0 nid).deadlines
        (sync_asana token false mf matters dtypes fetch dls0 nid).nextId =
        (flatTasks fetch (syncMatters matters mf)).foldl
          (processPairU false (buildTypeMap dtypes))
          ⟨(sync_asana token false mf matters dtypes fetch dls0 nid).deadlines,
           (sync_asana token false mf matters dtypes fetch dls0 nid).nextId,
           0, 0, 0⟩ := by
      rw [hunf]
      exact (foldl_pairsU (buildTypeMap dtypes)
        (flatTasks fetch (syncMatters matters mf))
        ⟨(sync_asana token false mf matters dtypes fetch dls0 nid).deadlines,
         (sync_asana token false mf matters dtypes fetch dls0 nid).nextId,
         0, 0, 0⟩ hgood1').1
    have hfr := run2_frozenU (buildTypeMap dtypes)
      (flatTasks fetch (syncMatters matters mf))
      ⟨(sync_asana token false mf matters dtypes fetch dls0 nid).deadlines,
       (sync_asana token false mf matters dtypes fetch dls0 nid).nextId, 0, 0, 0⟩
      (fun p hp => hset' p hp)
    rw [h2]
    exact ⟨hfr.2.1, hfr.2.2, hfr.1⟩

theorem sync_idempotent_witness :
    (sync_asana "tok" false none [sampleMatter] [ddExpiration, closingDate]
       (fun _ => Except.ok [sampleTask])
       (sync_asana "tok" false none [sampleMatter] [ddExpiration, closingDate]
          (fun _ => Except.ok [sampleTask]) [] 0).deadlines
       (sync_asana "tok" false none [sampleMatter] [ddExpiration, closingDate]
          (fun _ => Except.ok [sampleTask]) [] 0).nextId).created = 0 :=
  (sync_idempotent "tok" none [sampleMatter] [ddExpiration, closingDate]
    (fun _ => Except.ok [sampleTask]) [] 0 (by decide)
    ⟨by decide, by decide, by simp⟩).1
